import Mathlib

/-!
Shallow embedding of the fileforce service (src/main.rs, src/db.rs,
src/models.rs, src/auth.rs, src/handlers.rs): a minimal multi-tenant file
hosting service backed by a SQLite catalog (tables users, files, auth_tokens)
and a filesystem byte store.  The catalog is accessed through a single
mutex-guarded connection, so every handler invocation is one atomic step on
the whole state; the embedding models each axum handler as a pure function
from a server state (catalog plus byte storage) and its request inputs to a
response together with the successor state.  Randomness (Uuid::new_v4,
generate_token), timestamps (Utc::now) and the multipart payload enter as
explicit parameters.  Rust panics (.unwrap() on a failed operation) are the
explicit HResult.panic outcome, carrying the state at the moment of the
panic, since catalog mutations already executed persist across a request
panic.
-/

/-! ### Model of the external uuid crate (opaque unique ids)

Modelled from the spec: User and FileRecord identity is an "opaque unique
id" provided by the external uuid crate, which is not part of src/.  The
model keeps the properties the handlers rely on: Uuid.to_string is an
injective textual encoding whose characters are decimal digits (in
particular it never contains a path separator), and Uuid.parse_str inverts
it on its range and fails on strings outside the digit alphabet. -/

abbrev Uuid := Nat

/-- The character for one decimal digit, as code point 48 plus the digit. -/
def digitChar (d : Nat) : Char :=
  Char.ofNat (48 + d % 10)

/-- Inverse of digitChar on the decimal-digit code points 48 to 57. -/
def charToDigit (c : Char) : Option Nat :=
  if 48 ≤ c.toNat && c.toNat ≤ 57 then some (c.toNat - 48) else none

/-- Fuel-driven worker for digitsLSF; the fuel makes the recursion
structural so that terms reduce inside the kernel. -/
def digitsFuel : Nat → Nat → List Nat
  | 0, _ => []
  | _+1, 0 => []
  | fuel+1, n+1 => (n+1) % 10 :: digitsFuel fuel ((n+1) / 10)

/-- Decimal digits of a natural number, least significant first; the empty
list encodes zero. -/
def digitsLSF (n : Nat) : List Nat := digitsFuel n n

def ofDigitsLSF : List Nat → Nat
  | [] => 0
  | d :: ds => d + 10 * ofDigitsLSF ds

/-- Model of Uuid.to_string from the uuid crate. -/
def uuidToString (u : Uuid) : String :=
  String.mk ((digitsLSF u).map digitChar)

def charsToDigits : List Char → Option (List Nat)
  | [] => some []
  | c :: cs =>
    match charToDigit c, charsToDigits cs with
    | some d, some ds => some (d :: ds)
    | _, _ => none

/-- Model of Uuid.parse_str from the uuid crate: succeeds exactly on the
digit alphabet and inverts uuidToString. -/
def parseUuid (s : String) : Option Uuid :=
  (charsToDigits s.data).map ofDigitsLSF

/-! ### Data model (src/db.rs schema, src/models.rs)

The three catalog tables.  Id columns are TEXT in the schema (rows store
the textual uuid form, written by handlers via to_string and parsed back
via parse_str), so they are modelled as String fields.  Timestamps are the
RFC 3339 TEXT values; no handler inspects them, so they stay opaque
strings. -/

structure UserRow where
  id : String
  username : String
  email : String
  passwordHash : String
  createdAt : String
  updatedAt : String
deriving DecidableEq, Repr

structure FileRow where
  id : String
  userId : String
  filename : String
  filePath : String
  isPublic : Bool
  publicUrl : Option String
  createdAt : String
  updatedAt : String
deriving DecidableEq, Repr

structure TokenRow where
  token : String
  userId : String
  createdAt : String
deriving DecidableEq, Repr

structure Catalog where
  users : List UserRow
  files : List FileRow
  tokens : List TokenRow
deriving DecidableEq, Repr

/-- File contents as a byte sequence. -/
abbrev Bytes := List Nat

/-- The filesystem byte store: an association of storage paths to contents,
written by tokio fs write and read back by serve_public_file. -/
abbrev Storage := List (String × Bytes)

def storeLookup (s : Storage) (p : String) : Option Bytes :=
  (s.find? (fun e => e.1 = p)).map (fun e => e.2)

/-- Model of tokio fs write: overwrites any previous contents at the path.
The new entry is prepended; since storeLookup reads the first entry for a
path, a shadowed older entry is unobservable, which models the overwrite. -/
def storeWrite (s : Storage) (p : String) (b : Bytes) : Storage :=
  (p, b) :: s

structure ServerState where
  catalog : Catalog
  storage : Storage
deriving DecidableEq, Repr

def initialState : ServerState := ⟨⟨[], [], []⟩, []⟩

/-! ### SQL primitives

INSERT statements against the schema constraints of src/db.rs: users has
PRIMARY KEY id and UNIQUE username and email; files has PRIMARY KEY id
only; auth_tokens has PRIMARY KEY token.  A constraint violation makes the
insert fail (rusqlite Err), modelled as none. -/

def insertUser (c : Catalog) (r : UserRow) : Option Catalog :=
  if c.users.any (fun u => u.id = r.id || u.username = r.username || u.email = r.email)
  then none
  else some { c with users := c.users ++ [r] }

def insertFile (c : Catalog) (r : FileRow) : Option Catalog :=
  if c.files.any (fun f => f.id = r.id)
  then none
  else some { c with files := c.files ++ [r] }

def insertToken (c : Catalog) (r : TokenRow) : Option Catalog :=
  if c.tokens.any (fun t => t.token = r.token)
  then none
  else some { c with tokens := c.tokens ++ [r] }

/-! ### src/auth.rs -/

/-- Modelled from the spec: the external bcrypt crate (an opaque one-way
function outside src/).  The model keeps what the handlers rely on: verify
recognises exactly the hash of the same password and yields false on any
other input (fail closed).  Source: hash_password in src/auth.rs. -/
def hash_password (password : String) : String :=
  "bcrypt$" ++ password

/-- Source: verify_password in src/auth.rs; see hash_password for the
model of the bcrypt primitive. -/
def verify_password (password : String) (hash : String) : Bool :=
  hash = "bcrypt$" ++ password

/-- Shape of every string produced by generate_token in src/auth.rs:
32 characters sampled from the alphanumeric distribution.  The random
choice itself enters the model as a handler parameter constrained to this
shape. -/
def isGeneratedToken (s : String) : Bool :=
  s.length == 32 && s.data.all Char.isAlphanum

/-- Source: create_auth_token in src/auth.rs.  Inserts the freshly
generated token for the user; a primary-key conflict surfaces as none
(rusqlite Err). -/
def create_auth_token (c : Catalog) (userId : Uuid) (freshToken : String)
    (now : String) : Option Catalog :=
  insertToken c ⟨freshToken, uuidToString userId, now⟩

/-- Outcome of verify_auth_token in src/auth.rs: the token row is looked
up by exact string equality; absence is the rusqlite Err path, and a
stored user_id outside the uuid grammar would make the unwrap panic. -/
inductive AuthOutcome where
  | ok (uid : Uuid)
  | err
  | panic
deriving DecidableEq, Repr

/-- Source: verify_auth_token in src/auth.rs. -/
def verify_auth_token (c : Catalog) (token : String) : AuthOutcome :=
  match c.tokens.find? (fun r => r.token = token) with
  | none => .err
  | some r =>
    match parseUuid r.userId with
    | some u => .ok u
    | none => .panic

/-! ### src/handlers.rs -/

/-- HTTP status codes that the handlers produce (axum StatusCode).
conflict (409) appears in no handler but belongs to the wire vocabulary
the spec talks about. -/
inductive HStatus where
  | ok
  | created
  | badRequest
  | unauthorized
  | forbidden
  | notFound
  | conflict
  | internalServerError
deriving DecidableEq, Repr

/-- The File model struct of src/models.rs as serialised back to the
client: both id columns parsed from their TEXT form. -/
structure FileOut where
  id : Uuid
  userId : Uuid
  filename : String
  filePath : String
  isPublic : Bool
  publicUrl : Option String
  createdAt : String
  updatedAt : String
deriving DecidableEq, Repr

/-- Response bodies the handlers produce: plain text, a Json AuthToken,
a Json Vec of File, a Json File, or a streamed byte body. -/
inductive Body where
  | text (s : String)
  | token (t : String)
  | fileList (fs : List FileOut)
  | file (f : FileOut)
  | bytes (b : Bytes)
deriving DecidableEq, Repr

/-- Result of one handler invocation: a response (status and body)
together with the successor server state, or a panic (an unwrap of a
failed operation) carrying the state at that moment. -/
inductive HResult where
  | resp (status : HStatus) (body : Body) (st : ServerState)
  | panic (st : ServerState)
deriving DecidableEq, Repr

/-- The server state after an invocation, for either outcome. -/
def HResult.state : HResult → ServerState
  | .resp _ _ st => st
  | .panic st => st

/-- Row-to-struct conversion used by the query_map and query_row closures
of get_user_files and make_file_public: both Uuid::parse_str calls unwrap,
so a malformed id column is a panic, modelled as none. -/
def rowToFile (r : FileRow) : Option FileOut :=
  match parseUuid r.id, parseUuid r.userId with
  | some i, some u =>
    some ⟨i, u, r.filename, r.filePath, r.isPublic, r.publicUrl, r.createdAt, r.updatedAt⟩
  | _, _ => none

/-- The collect of the query_map iterator in get_user_files. -/
def collectFiles : List FileRow → Option (List FileOut)
  | [] => some []
  | r :: rs =>
    match rowToFile r, collectFiles rs with
    | some f, some fs => some (f :: fs)
    | _, _ => none

/-- Shared authentication preamble of upload_file, get_user_files and
make_file_public: the Authorization header value is used verbatim as the
token; a missing header or unknown token is 401. -/
def authenticate (st : ServerState) (auth : Option String) : Except HResult Uuid :=
  match auth with
  | none => .error (.resp .unauthorized (.text "Missing token") st)
  | some token =>
    match verify_auth_token st.catalog token with
    | .ok uid => .ok uid
    | .err => .error (.resp .unauthorized (.text "Invalid token") st)
    | .panic => .error (.panic st)

/-- Source: register_user in src/handlers.rs.  freshId models
Uuid::new_v4, freshToken the generate_token call inside
create_auth_token, now the Utc::now timestamp. -/
def register_user (st : ServerState) (username email password : String)
    (freshId : Uuid) (freshToken : String) (now : String) : HResult :=
  let row : UserRow :=
    ⟨uuidToString freshId, username, email, hash_password password, now, now⟩
  match insertUser st.catalog row with
  | some c1 =>
    match create_auth_token c1 freshId freshToken now with
    | some c2 => .resp .created (.token freshToken) ⟨c2, st.storage⟩
    | none => .panic ⟨c1, st.storage⟩
  | none => .resp .badRequest (.text "User already exists") st

/-- Source: login_user in src/handlers.rs.  The query_row closure parses
the id column before the password check, so a malformed stored id is a
panic even for a wrong password. -/
def login_user (st : ServerState) (username password : String)
    (freshToken : String) (now : String) : HResult :=
  match st.catalog.users.find? (fun u => u.username = username) with
  | some u =>
    match parseUuid u.id with
    | none => .panic st
    | some uid =>
      if verify_password password u.passwordHash then
        match create_auth_token st.catalog uid freshToken now with
        | some c1 => .resp .ok (.token freshToken) ⟨c1, st.storage⟩
        | none => .panic st
      else .resp .unauthorized (.text "Invalid credentials") st
  | none => .resp .unauthorized (.text "Invalid credentials") st

/-- Source: upload_file in src/handlers.rs.  parts is the decoded
multipart body as (filename, bytes) fields; the handler consumes only the
first field and returns inside the loop.  writeOk models whether the
tokio fs write succeeds; its failure is unwrapped, hence a panic before
any catalog insert. -/
def upload_file (st : ServerState) (auth : Option String)
    (parts : List (String × Bytes)) (freshId : Uuid) (writeOk : Bool)
    (now : String) : HResult :=
  match authenticate st auth with
  | .error r => r
  | .ok uid =>
    match parts with
    | [] => .resp .badRequest (.text "No file uploaded") st
    | (filename, data) :: _ =>
      let filePath := "files/" ++ uuidToString uid ++ "/" ++ filename
      if writeOk then
        let storage1 := storeWrite st.storage filePath data
        let row : FileRow :=
          ⟨uuidToString freshId, uuidToString uid, filename, filePath,
            false, none, now, now⟩
        match insertFile st.catalog row with
        | some c1 => .resp .created (.text "File uploaded successfully") ⟨c1, storage1⟩
        | none => .panic ⟨st.catalog, storage1⟩
      else .panic st

/-- Source: get_user_files in src/handlers.rs.  The SELECT filters rows
by the user_id column against the authenticated id in textual form. -/
def get_user_files (st : ServerState) (auth : Option String) : HResult :=
  match authenticate st auth with
  | .error r => r
  | .ok uid =>
    let rows := st.catalog.files.filter (fun r => r.userId = uuidToString uid)
    match collectFiles rows with
    | some fs => .resp .ok (.fileList fs) st
    | none => .panic st

/-- Source: make_file_public in src/handlers.rs.  The UPDATE matches rows
on both id and user_id; when at least one row matched, the handler
re-reads the row by id alone and returns it, unwrapping both the
query_row and the id parses. -/
def make_file_public (st : ServerState) (auth : Option String)
    (fileId : Uuid) : HResult :=
  match authenticate st auth with
  | .error r => r
  | .ok uid =>
    let publicUrl := "/public/" ++ uuidToString fileId
    let hit : FileRow → Bool :=
      fun r => r.id = uuidToString fileId && r.userId = uuidToString uid
    let matched := st.catalog.files.countP hit
    let files1 := st.catalog.files.map
      (fun r => if hit r then { r with isPublic := true, publicUrl := some publicUrl } else r)
    let st1 : ServerState := ⟨{ st.catalog with files := files1 }, st.storage⟩
    if matched > 0 then
      match files1.find? (fun r => r.id = uuidToString fileId) with
      | some r =>
        match rowToFile r with
        | some f => .resp .ok (.file f) st1
        | none => .panic st1
      | none => .panic st1
    else .resp .notFound (.text "File not found") st1

/-- Source: serve_public_file in src/handlers.rs.  No authentication
input at all: the route takes only the file id.  The SELECT requires both
the id match and is_public; a missing row and a failing filesystem open
both yield the same 404 response. -/
def serve_public_file (st : ServerState) (fileId : Uuid) : HResult :=
  match st.catalog.files.find?
      (fun r => r.id = uuidToString fileId && r.isPublic) with
  | some r =>
    match storeLookup st.storage r.filePath with
    | some b => .resp .ok (.bytes b) st
    | none => .resp .notFound (.text "File not found") st
  | none => .resp .notFound (.text "File not found") st

/-! ### Reachable states

One step is one complete handler invocation (the catalog mutex serialises
them); the state after a panic also counts, because catalog mutations
executed before the unwrap persist.  The freshToken parameters of the
register and login steps are outputs of generate_token and therefore
carry its shape. -/

inductive Step : ServerState → ServerState → Prop where
  | register (st : ServerState) (username email password : String)
      (freshId : Uuid) (freshToken : String) (now : String)
      (htok : isGeneratedToken freshToken = true) :
      Step st (register_user st username email password freshId freshToken now).state
  | login (st : ServerState) (username password : String)
      (freshToken : String) (now : String)
      (htok : isGeneratedToken freshToken = true) :
      Step st (login_user st username password freshToken now).state
  | upload (st : ServerState) (auth : Option String)
      (parts : List (String × Bytes)) (freshId : Uuid) (writeOk : Bool)
      (now : String) :
      Step st (upload_file st auth parts freshId writeOk now).state
  | list (st : ServerState) (auth : Option String) :
      Step st (get_user_files st auth).state
  | publish (st : ServerState) (auth : Option String) (fileId : Uuid) :
      Step st (make_file_public st auth fileId).state
  | serve (st : ServerState) (fileId : Uuid) :
      Step st (serve_public_file st fileId).state

inductive Reachable : ServerState → Prop where
  | init : Reachable initialState
  | step {st st' : ServerState} : Reachable st → Step st st' → Reachable st'

/-- The global invariant every reachable state satisfies. -/
structure WF (st : ServerState) : Prop where
  usersId : ∀ u ∈ st.catalog.users, ∃ v : Uuid, u.id = uuidToString v
  tokensUserId : ∀ r ∈ st.catalog.tokens, ∃ v : Uuid, r.userId = uuidToString v
  tokensShape : ∀ r ∈ st.catalog.tokens, isGeneratedToken r.token = true
  tokensUnique : st.catalog.tokens.Pairwise (fun a b => a.token ≠ b.token)
  filesId : ∀ f ∈ st.catalog.files, ∃ v : Uuid, f.id = uuidToString v
  filesIdUnique : st.catalog.files.Pairwise (fun a b => a.id ≠ b.id)
  filesOwner : ∀ f ∈ st.catalog.files, ∃ v : Uuid, f.userId = uuidToString v
  filesPath : ∀ f ∈ st.catalog.files,
    f.filePath = "files/" ++ f.userId ++ "/" ++ f.filename
  filesVis : ∀ f ∈ st.catalog.files, (f.isPublic = false ↔ f.publicUrl = none)
  filesStored : ∀ f ∈ st.catalog.files, (storeLookup st.storage f.filePath).isSome = true

/-! ### Concrete executions used as witnesses

A register of alice, an upload of a.txt with bytes "hello", a second
upload of the same filename, a publish, and a register of bob, chained
from the initial state. -/

def aliceTok : String := "AAAAAAAAAAAAAAAAAAAAAAAAAAAAAAAA"

def bobTok : String := "BBBBBBBBBBBBBBBBBBBBBBBBBBBBBBBB"

def stA : ServerState :=
  (register_user initialState "alice" "a@x.com" "pw1" 1 aliceTok "t0").state

def stB : ServerState :=
  (upload_file stA (some aliceTok) [("a.txt", [104, 101, 108, 108, 111])] 2 true "t1").state

def stC : ServerState :=
  (upload_file stB (some aliceTok) [("a.txt", [119, 111])] 3 true "t2").state

def stP : ServerState :=
  (make_file_public stB (some aliceTok) 2).state

def stD : ServerState :=
  (register_user stB "bob" "b@x.com" "pw2" 4 bobTok "t3").state

/-- The file row of the concrete published upload, as it sits in stP. -/
def pubRow : FileRow :=
  ⟨"2", "1", "a.txt", "files/1/a.txt", true, some "/public/2", "t1", "t1"⟩

/-- A second distinct owner with a stored file: bob uploads b.txt in stD. -/
def stE : ServerState :=
  (upload_file stD (some bobTok) [("b.txt", [98])] 5 true "t4").state

/-! ### Properties

Lemmas about the embedding, the global invariant of reachable states, and
the claim theorems with their concrete witnesses. -/

theorem digitsFuel_congr : ∀ (f1 f2 n : Nat), n ≤ f1 → n ≤ f2 →
    digitsFuel f1 n = digitsFuel f2 n := by
  intro f1
  induction f1 with
  | zero =>
    intro f2 n h1 h2
    have hn : n = 0 := Nat.le_zero.mp h1
    subst hn
    cases f2 <;> rfl
  | succ f ih =>
    intro f2 n h1 h2
    cases n with
    | zero => cases f2 <;> rfl
    | succ m =>
      cases f2 with
      | zero => exact absurd h2 (Nat.not_succ_le_zero m)
      | succ f2 =>
        show (m+1) % 10 :: digitsFuel f ((m+1) / 10) =
          (m+1) % 10 :: digitsFuel f2 ((m+1) / 10)
        have hd : (m+1) / 10 < m + 1 := Nat.div_lt_self (Nat.succ_pos m) (by decide)
        rw [ih f2 ((m+1) / 10) (by omega) (by omega)]

theorem digitsLSF_succ (n : Nat) :
    digitsLSF (n+1) = (n+1) % 10 :: digitsLSF ((n+1) / 10) := by
  show digitsFuel (n+1) (n+1) = (n+1) % 10 :: digitsFuel ((n+1) / 10) ((n+1) / 10)
  have hd : (n+1) / 10 < n + 1 := Nat.div_lt_self (Nat.succ_pos n) (by decide)
  show (n+1) % 10 :: digitsFuel n ((n+1) / 10) = _
  rw [digitsFuel_congr n ((n+1) / 10) ((n+1) / 10) (by omega) (Nat.le_refl _)]

theorem ofDigitsLSF_digitsLSF (n : Nat) : ofDigitsLSF (digitsLSF n) = n := by
  induction n using Nat.strong_induction_on with
  | _ n ih =>
    match n with
    | 0 => rfl
    | n+1 =>
      rw [digitsLSF_succ, ofDigitsLSF,
        ih ((n+1) / 10) (Nat.div_lt_self (Nat.succ_pos n) (by decide))]
      omega

theorem charToDigit_digitChar (d : Nat) (h : d < 10) :
    charToDigit (digitChar d) = some d := by
  interval_cases d <;> decide

theorem digitsLSF_lt (n : Nat) : ∀ d ∈ digitsLSF n, d < 10 := by
  induction n using Nat.strong_induction_on with
  | _ n ih =>
    match n with
    | 0 => intro d hd; cases hd
    | n+1 =>
      intro d hd
      rw [digitsLSF_succ] at hd
      rcases List.mem_cons.mp hd with h | h
      · omega
      · exact ih ((n+1) / 10) (Nat.div_lt_self (Nat.succ_pos n) (by decide)) d h

theorem charsToDigits_map_digitChar (ds : List Nat) (h : ∀ d ∈ ds, d < 10) :
    charsToDigits (ds.map digitChar) = some ds := by
  induction ds with
  | nil => rfl
  | cons d ds ih =>
    rw [List.map_cons, charsToDigits,
      charToDigit_digitChar d (h d (List.mem_cons_self d ds)),
      ih (fun x hx => h x (List.mem_cons_of_mem d hx))]

theorem parseUuid_uuidToString (u : Uuid) : parseUuid (uuidToString u) = some u := by
  rw [uuidToString, parseUuid]
  show (charsToDigits ((digitsLSF u).map digitChar)).map ofDigitsLSF = some u
  rw [charsToDigits_map_digitChar (digitsLSF u) (digitsLSF_lt u)]
  simp [ofDigitsLSF_digitsLSF]

theorem uuidToString_injective : Function.Injective uuidToString := by
  intro a b h
  have := parseUuid_uuidToString a
  rw [h, parseUuid_uuidToString b] at this
  exact (Option.some_inj.mp this).symm

theorem digitChar_ne_slash (d : Nat) : digitChar d ≠ '/' := by
  have h : d % 10 < 10 := Nat.mod_lt d (by decide)
  unfold digitChar
  revert h
  generalize d % 10 = k
  intro h
  interval_cases k <;> decide

theorem slash_not_mem_uuidToString (u : Uuid) : '/' ∉ (uuidToString u).data := by
  rw [uuidToString]
  intro hmem
  rcases List.mem_map.mp hmem with ⟨d, _, hd⟩
  exact digitChar_ne_slash d hd

theorem storeLookup_storeWrite (s : Storage) (p : String) (b : Bytes) (q : String) :
    storeLookup (storeWrite s p b) q = if q = p then some b else storeLookup s q := by
  by_cases hq : q = p
  · subst hq
    simp [storeWrite, storeLookup, List.find?_cons]
  · have hpq : ¬ p = q := fun h => hq h.symm
    simp [storeWrite, storeLookup, List.find?_cons, hpq, if_neg hq]

theorem authenticate_error_state (st : ServerState) (auth : Option String)
    (r : HResult) (h : authenticate st auth = .error r) : r.state = st := by
  unfold authenticate at h
  cases auth with
  | none => cases h; rfl
  | some t =>
    simp only at h
    cases hv : verify_auth_token st.catalog t <;> rw [hv] at h <;> cases h <;> rfl

theorem get_user_files_state (st : ServerState) (auth : Option String) :
    (get_user_files st auth).state = st := by
  unfold get_user_files
  cases h : authenticate st auth with
  | error r => exact authenticate_error_state st auth r h
  | ok uid =>
    simp only
    split <;> rfl

theorem serve_public_file_state (st : ServerState) (fileId : Uuid) :
    (serve_public_file st fileId).state = st := by
  unfold serve_public_file
  split
  · split <;> rfl
  · rfl

theorem insertUser_some (c : Catalog) (r : UserRow) (c1 : Catalog)
    (h : insertUser c r = some c1) :
    c1 = { c with users := c.users ++ [r] } := by
  unfold insertUser at h
  split at h
  · cases h
  · exact (Option.some_inj.mp h).symm

theorem insertFile_some (c : Catalog) (r : FileRow) (c1 : Catalog)
    (h : insertFile c r = some c1) :
    c1 = { c with files := c.files ++ [r] } ∧ ∀ f ∈ c.files, ¬ f.id = r.id := by
  unfold insertFile at h
  split at h
  · cases h
  · refine ⟨(Option.some_inj.mp h).symm, ?_⟩
    intro f hf
    have hany := Bool.eq_false_iff.mpr (by assumption :
      ¬ c.files.any (fun f => f.id = r.id) = true)
    rw [List.any_eq_false] at hany
    simpa using hany f hf

theorem insertToken_some (c : Catalog) (r : TokenRow) (c1 : Catalog)
    (h : insertToken c r = some c1) :
    c1 = { c with tokens := c.tokens ++ [r] } ∧ ∀ t ∈ c.tokens, ¬ t.token = r.token := by
  unfold insertToken at h
  split at h
  · cases h
  · refine ⟨(Option.some_inj.mp h).symm, ?_⟩
    intro t ht
    have hany := Bool.eq_false_iff.mpr (by assumption :
      ¬ c.tokens.any (fun t => t.token = r.token) = true)
    rw [List.any_eq_false] at hany
    simpa using hany t ht

theorem WF_addUser (st : ServerState) (r : UserRow) (hwf : WF st)
    (hid : ∃ v : Uuid, r.id = uuidToString v) :
    WF ⟨{ st.catalog with users := st.catalog.users ++ [r] }, st.storage⟩ := by
  constructor
  · intro x hx
    rcases List.mem_append.mp hx with h | h
    · exact hwf.usersId x h
    · rw [List.mem_singleton.mp h]; exact hid
  · exact hwf.tokensUserId
  · exact hwf.tokensShape
  · exact hwf.tokensUnique
  · exact hwf.filesId
  · exact hwf.filesIdUnique
  · exact hwf.filesOwner
  · exact hwf.filesPath
  · exact hwf.filesVis
  · exact hwf.filesStored

theorem WF_addToken (st : ServerState) (r : TokenRow) (hwf : WF st)
    (huid : ∃ v : Uuid, r.userId = uuidToString v)
    (hshape : isGeneratedToken r.token = true)
    (hnew : ∀ t ∈ st.catalog.tokens, ¬ t.token = r.token) :
    WF ⟨{ st.catalog with tokens := st.catalog.tokens ++ [r] }, st.storage⟩ := by
  constructor
  · exact hwf.usersId
  · intro x hx
    rcases List.mem_append.mp hx with h | h
    · exact hwf.tokensUserId x h
    · rw [List.mem_singleton.mp h]; exact huid
  · intro x hx
    rcases List.mem_append.mp hx with h | h
    · exact hwf.tokensShape x h
    · rw [List.mem_singleton.mp h]; exact hshape
  · rw [List.pairwise_append]
    exact ⟨hwf.tokensUnique, List.pairwise_singleton _ _,
      fun a ha b hb => by rw [List.mem_singleton.mp hb]; exact hnew a ha⟩
  · exact hwf.filesId
  · exact hwf.filesIdUnique
  · exact hwf.filesOwner
  · exact hwf.filesPath
  · exact hwf.filesVis
  · exact hwf.filesStored

theorem WF_addFile (st : ServerState) (uid fid : Uuid) (filename : String)
    (data : Bytes) (now : String) (hwf : WF st)
    (hfresh : ∀ f ∈ st.catalog.files, ¬ f.id = uuidToString fid) :
    WF ⟨{ st.catalog with files := st.catalog.files ++
        [⟨uuidToString fid, uuidToString uid, filename,
          "files/" ++ uuidToString uid ++ "/" ++ filename, false, none, now, now⟩] },
      storeWrite st.storage ("files/" ++ uuidToString uid ++ "/" ++ filename) data⟩ := by
  constructor
  · exact hwf.usersId
  · exact hwf.tokensUserId
  · exact hwf.tokensShape
  · exact hwf.tokensUnique
  · intro x hx
    rcases List.mem_append.mp hx with h | h
    · exact hwf.filesId x h
    · rw [List.mem_singleton.mp h]; exact ⟨fid, rfl⟩
  · rw [List.pairwise_append]
    refine ⟨hwf.filesIdUnique, List.pairwise_singleton _ _, ?_⟩
    intro a ha b hb
    rw [List.mem_singleton.mp hb]
    exact hfresh a ha
  · intro x hx
    rcases List.mem_append.mp hx with h | h
    · exact hwf.filesOwner x h
    · rw [List.mem_singleton.mp h]; exact ⟨uid, rfl⟩
  · intro x hx
    rcases List.mem_append.mp hx with h | h
    · exact hwf.filesPath x h
    · rw [List.mem_singleton.mp h]
  · intro x hx
    rcases List.mem_append.mp hx with h | h
    · exact hwf.filesVis x h
    · rw [List.mem_singleton.mp h]
      exact ⟨fun _ => rfl, fun _ => rfl⟩
  · intro x hx
    rcases List.mem_append.mp hx with h | h
    · rw [storeLookup_storeWrite]
      split
      · rfl
      · exact hwf.filesStored x h
    · rw [List.mem_singleton.mp h]
      show (storeLookup (storeWrite _ _ _) ("files/" ++ uuidToString uid ++ "/" ++ filename)).isSome = true
      rw [storeLookup_storeWrite, if_pos rfl]
      rfl

theorem WF_write (st : ServerState) (p : String) (b : Bytes) (hwf : WF st) :
    WF ⟨st.catalog, storeWrite st.storage p b⟩ := by
  constructor
  · exact hwf.usersId
  · exact hwf.tokensUserId
  · exact hwf.tokensShape
  · exact hwf.tokensUnique
  · exact hwf.filesId
  · exact hwf.filesIdUnique
  · exact hwf.filesOwner
  · exact hwf.filesPath
  · exact hwf.filesVis
  · intro x hx
    rw [storeLookup_storeWrite]
    split
    · rfl
    · exact hwf.filesStored x hx

theorem WF_publishMap (st : ServerState) (hit : FileRow → Bool) (url : String)
    (hwf : WF st) :
    WF ⟨{ st.catalog with
            files := st.catalog.files.map
              (fun r => if hit r then { r with isPublic := true, publicUrl := some url } else r) },
      st.storage⟩ := by
  have hfield : ∀ r : FileRow,
      ((if hit r then { r with isPublic := true, publicUrl := some url } else r) : FileRow).id = r.id ∧
      ((if hit r then { r with isPublic := true, publicUrl := some url } else r) : FileRow).userId = r.userId ∧
      ((if hit r then { r with isPublic := true, publicUrl := some url } else r) : FileRow).filename = r.filename ∧
      ((if hit r then { r with isPublic := true, publicUrl := some url } else r) : FileRow).filePath = r.filePath := by
    intro r
    split <;> exact ⟨rfl, rfl, rfl, rfl⟩
  constructor
  · exact hwf.usersId
  · exact hwf.tokensUserId
  · exact hwf.tokensShape
  · exact hwf.tokensUnique
  · intro x hx
    rcases List.mem_map.mp hx with ⟨r, hr, hxr⟩
    rw [← hxr, (hfield r).1]
    exact hwf.filesId r hr
  · rw [List.pairwise_map]
    refine List.Pairwise.imp_of_mem ?_ hwf.filesIdUnique
    intro a b ha hb hne
    rw [(hfield a).1, (hfield b).1]
    exact hne
  · intro x hx
    rcases List.mem_map.mp hx with ⟨r, hr, hxr⟩
    rw [← hxr, (hfield r).2.1]
    exact hwf.filesOwner r hr
  · intro x hx
    rcases List.mem_map.mp hx with ⟨r, hr, hxr⟩
    rw [← hxr, (hfield r).2.2.2, (hfield r).2.1, (hfield r).2.2.1]
    exact hwf.filesPath r hr
  · intro x hx
    rcases List.mem_map.mp hx with ⟨r, hr, hxr⟩
    rw [← hxr]
    split
    · exact Iff.intro (fun h => by cases h) (fun h => by cases h)
    · exact hwf.filesVis r hr
  · intro x hx
    rcases List.mem_map.mp hx with ⟨r, hr, hxr⟩
    rw [← hxr, (hfield r).2.2.2]
    exact hwf.filesStored r hr

theorem register_user_WF (st : ServerState) (u e p : String) (fid : Uuid)
    (ftok now : String) (htok : isGeneratedToken ftok = true) (hwf : WF st) :
    WF (register_user st u e p fid ftok now).state := by
  unfold register_user
  dsimp only
  cases h1 : insertUser st.catalog ⟨uuidToString fid, u, e, hash_password p, now, now⟩ with
  | none => exact hwf
  | some c1 =>
    dsimp only
    have hc1 := insertUser_some _ _ _ h1
    cases h2 : create_auth_token c1 fid ftok now with
    | none =>
      subst hc1
      exact WF_addUser st ⟨uuidToString fid, u, e, hash_password p, now, now⟩ hwf ⟨fid, rfl⟩
    | some c2 =>
      obtain ⟨hc2, hnew⟩ := insertToken_some c1 ⟨ftok, uuidToString fid, now⟩ c2 h2
      subst hc1
      subst hc2
      exact WF_addToken
        ⟨{ st.catalog with users := st.catalog.users ++
            [⟨uuidToString fid, u, e, hash_password p, now, now⟩] }, st.storage⟩
        ⟨ftok, uuidToString fid, now⟩
        (WF_addUser st ⟨uuidToString fid, u, e, hash_password p, now, now⟩ hwf ⟨fid, rfl⟩)
        ⟨fid, rfl⟩ htok hnew

theorem login_user_WF (st : ServerState) (u p : String) (ftok now : String)
    (htok : isGeneratedToken ftok = true) (hwf : WF st) :
    WF (login_user st u p ftok now).state := by
  unfold login_user
  cases h1 : st.catalog.users.find? (fun x => x.username = u) with
  | none => exact hwf
  | some usr =>
    dsimp only
    cases h2 : parseUuid usr.id with
    | none => exact hwf
    | some uid =>
      dsimp only
      by_cases hv : verify_password p usr.passwordHash
      · rw [if_pos hv]
        cases h3 : create_auth_token st.catalog uid ftok now with
        | none => exact hwf
        | some c1 =>
          obtain ⟨hc1, hnew⟩ := insertToken_some st.catalog ⟨ftok, uuidToString uid, now⟩ c1 h3
          subst hc1
          exact WF_addToken st _ hwf ⟨uid, rfl⟩ htok hnew
      · rw [if_neg hv]
        exact hwf

theorem upload_file_WF (st : ServerState) (auth : Option String)
    (parts : List (String × Bytes)) (fid : Uuid) (wok : Bool) (now : String)
    (hwf : WF st) : WF (upload_file st auth parts fid wok now).state := by
  unfold upload_file
  cases ha : authenticate st auth with
  | error r =>
    show WF r.state
    rw [authenticate_error_state st auth r ha]
    exact hwf
  | ok uid =>
    dsimp only
    cases parts with
    | nil => exact hwf
    | cons hd tl =>
      obtain ⟨filename, data⟩ := hd
      dsimp only
      cases wok with
      | false => exact hwf
      | true =>
        rw [if_pos rfl]
        cases h1 : insertFile st.catalog
            ⟨uuidToString fid, uuidToString uid, filename,
              "files/" ++ uuidToString uid ++ "/" ++ filename, false, none, now, now⟩ with
        | none => exact WF_write st _ data hwf
        | some c1 =>
          obtain ⟨hc1, hfresh⟩ := insertFile_some _ _ _ h1
          subst hc1
          exact WF_addFile st uid fid filename data now hwf hfresh

theorem make_file_public_WF (st : ServerState) (auth : Option String)
    (fileId : Uuid) (hwf : WF st) :
    WF (make_file_public st auth fileId).state := by
  unfold make_file_public
  cases ha : authenticate st auth with
  | error r =>
    show WF r.state
    rw [authenticate_error_state st auth r ha]
    exact hwf
  | ok uid =>
    have hwf1 := WF_publishMap st
      (fun r => r.id = uuidToString fileId && r.userId = uuidToString uid)
      ("/public/" ++ uuidToString fileId) hwf
    dsimp only
    split
    · split
      · split
        · exact hwf1
        · exact hwf1
      · exact hwf1
    · exact hwf1

theorem wf_step {st st' : ServerState} (h : Step st st') (hwf : WF st) : WF st' := by
  cases h with
  | register u e p fid ftok now htok => exact register_user_WF st u e p fid ftok now htok hwf
  | login u p ftok now htok => exact login_user_WF st u p ftok now htok hwf
  | upload auth parts fid wok now => exact upload_file_WF st auth parts fid wok now hwf
  | list auth => rw [get_user_files_state]; exact hwf
  | publish auth fileId => exact make_file_public_WF st auth fileId hwf
  | serve fileId => rw [serve_public_file_state]; exact hwf

theorem wf_reachable {st : ServerState} (h : Reachable st) : WF st := by
  induction h with
  | init =>
    constructor <;> simp [initialState]
  | step _ hstep ih => exact wf_step hstep ih

theorem find?_eq_some_of_unique {α : Type} (p : α → Bool) (l : List α) (x : α)
    (hx : x ∈ l) (hpx : p x = true) (huniq : ∀ y ∈ l, p y = true → y = x) :
    l.find? p = some x := by
  induction l with
  | nil => cases hx
  | cons a l ih =>
    rw [List.find?_cons]
    cases hpa : p a with
    | false =>
      have hxl : x ∈ l := by
        rcases List.mem_cons.mp hx with h | h
        · rw [h] at hpx; rw [hpx] at hpa; cases hpa
        · exact h
      exact ih hxl (fun y hy hpy => huniq y (List.mem_cons_of_mem a hy) hpy)
    | true =>
      rw [huniq a (List.mem_cons_self a l) hpa]

theorem eq_of_mem_pairwise_ne {α β : Type} (f : α → β) (l : List α)
    (hpw : l.Pairwise (fun a b => f a ≠ f b)) (x y : α) (hx : x ∈ l) (hy : y ∈ l)
    (hf : f x = f y) : x = y := by
  induction l with
  | nil => cases hx
  | cons a l ih =>
    rcases List.pairwise_cons.mp hpw with ⟨ha, hl⟩
    rcases List.mem_cons.mp hx with hx1 | hx1
    · rcases List.mem_cons.mp hy with hy1 | hy1
      · rw [hx1, hy1]
      · rw [hx1] at hf ⊢
        exact absurd hf (ha y hy1)
    · rcases List.mem_cons.mp hy with hy1 | hy1
      · rw [hy1] at hf ⊢
        exact absurd hf.symm (ha x hx1)
      · exact ih hl hx1 hy1

theorem append_slash_left_inj (a : List Char) (b x y : List Char)
    (ha : '/' ∉ a) (hb : '/' ∉ b)
    (h : a ++ '/' :: x = b ++ '/' :: y) : a = b := by
  induction a generalizing b with
  | nil =>
    cases b with
    | nil => rfl
    | cons d bs =>
      rw [List.nil_append, List.cons_append] at h
      injection h with h1 h2
      exact absurd (h1 ▸ List.mem_cons_self d bs) hb
  | cons c as ih =>
    cases b with
    | nil =>
      rw [List.nil_append, List.cons_append] at h
      injection h with h1 h2
      exact absurd (h1 ▸ List.mem_cons_self c as) ha
    | cons d bs =>
      rw [List.cons_append, List.cons_append] at h
      injection h with h1 h2
      rw [h1, ih bs (fun hm => ha (List.mem_cons_of_mem c hm))
        (fun hm => hb (List.mem_cons_of_mem d hm)) h2]

theorem path_data_eq (u f : String) :
    ("files/" ++ u ++ "/" ++ f).data =
      'f' :: 'i' :: 'l' :: 'e' :: 's' :: '/' :: (u.data ++ '/' :: f.data) := by
  simp [String.data_append]

theorem path_ne_of_userId_ne (u1 u2 f1 f2 : String)
    (h1 : '/' ∉ u1.data) (h2 : '/' ∉ u2.data) (hne : ¬ u1 = u2) :
    ¬ ("files/" ++ u1 ++ "/" ++ f1 = "files/" ++ u2 ++ "/" ++ f2) := by
  intro h
  apply hne
  have hd : ("files/" ++ u1 ++ "/" ++ f1).data = ("files/" ++ u2 ++ "/" ++ f2).data := by
    rw [h]
  rw [path_data_eq, path_data_eq] at hd
  simp only [List.cons.injEq, true_and] at hd
  have := append_slash_left_inj u1.data u2.data f1.data f2.data h1 h2 hd
  cases u1 with
  | mk d1 =>
    cases u2 with
    | mk d2 => exact congrArg String.mk (by simpa using this)

theorem verify_token_of_mem (st : ServerState) (hwf : WF st) (r : TokenRow)
    (hr : r ∈ st.catalog.tokens) (v : Uuid) (hv : r.userId = uuidToString v) :
    verify_auth_token st.catalog r.token = .ok v := by
  unfold verify_auth_token
  rw [find?_eq_some_of_unique (fun t => t.token = r.token) st.catalog.tokens r hr
    (by simp) (fun y hy hpy =>
      eq_of_mem_pairwise_ne (fun t => t.token) st.catalog.tokens hwf.tokensUnique
        y r hy hr (by simpa using hpy))]
  show (match parseUuid r.userId with
    | some u => AuthOutcome.ok u
    | none => AuthOutcome.panic) = AuthOutcome.ok v
  rw [hv, parseUuid_uuidToString]

theorem reach_stA : Reachable stA :=
  Reachable.step Reachable.init
    (Step.register initialState "alice" "a@x.com" "pw1" 1 aliceTok "t0" (by decide))

theorem reach_stB : Reachable stB :=
  Reachable.step reach_stA
    (Step.upload stA (some aliceTok) [("a.txt", [104, 101, 108, 108, 111])] 2 true "t1")

theorem reach_stC : Reachable stC :=
  Reachable.step reach_stB
    (Step.upload stB (some aliceTok) [("a.txt", [119, 111])] 3 true "t2")

theorem reach_stP : Reachable stP :=
  Reachable.step reach_stB (Step.publish stB (some aliceTok) 2)

theorem reach_stD : Reachable stD :=
  Reachable.step reach_stB
    (Step.register stB "bob" "b@x.com" "pw2" 4 bobTok "t3" (by decide))

theorem rowToFile_fields (r : FileRow) (f : FileOut) (h : rowToFile r = some f) :
    parseUuid r.id = some f.id ∧ parseUuid r.userId = some f.userId ∧
    f.filename = r.filename ∧ f.filePath = r.filePath := by
  unfold rowToFile at h
  cases hi : parseUuid r.id with
  | none => rw [hi] at h; cases h
  | some i =>
    cases hu : parseUuid r.userId with
    | none => rw [hi, hu] at h; cases h
    | some u =>
      rw [hi, hu] at h
      injection h with h1
      rw [← h1]
      exact ⟨rfl, rfl, rfl, rfl⟩

theorem rowToFile_isSome (r : FileRow) (hi : (parseUuid r.id).isSome = true)
    (hu : (parseUuid r.userId).isSome = true) : ∃ f, rowToFile r = some f := by
  unfold rowToFile
  cases h1 : parseUuid r.id with
  | none => rw [h1] at hi; cases hi
  | some i =>
    cases h2 : parseUuid r.userId with
    | none => rw [h2] at hu; cases hu
    | some u => exact ⟨_, rfl⟩

theorem collectFiles_sound (l : List FileRow)
    (hok : ∀ r ∈ l, ∃ f, rowToFile r = some f) :
    ∃ fs, collectFiles l = some fs ∧
      (∀ f ∈ fs, ∃ r ∈ l, rowToFile r = some f) ∧
      (∀ r ∈ l, ∃ f ∈ fs, rowToFile r = some f) := by
  induction l with
  | nil => exact ⟨[], rfl, fun f hf => absurd hf (List.not_mem_nil f), fun r hr => absurd hr (List.not_mem_nil r)⟩
  | cons r l ih =>
    obtain ⟨f, hf⟩ := hok r (List.mem_cons_self r l)
    obtain ⟨fs, hfs, hsound, hcomplete⟩ := ih (fun x hx => hok x (List.mem_cons_of_mem r hx))
    refine ⟨f :: fs, ?_, ?_, ?_⟩
    · unfold collectFiles
      rw [hf, hfs]
    · intro g hg
      rcases List.mem_cons.mp hg with hg1 | hg1
      · exact ⟨r, List.mem_cons_self r l, hg1 ▸ hf⟩
      · obtain ⟨x, hx, hxg⟩ := hsound g hg1
        exact ⟨x, List.mem_cons_of_mem r hx, hxg⟩
    · intro x hx
      rcases List.mem_cons.mp hx with hx1 | hx1
      · exact ⟨f, List.mem_cons_self f fs, hx1 ▸ hf⟩
      · obtain ⟨g, hg, hgx⟩ := hcomplete x hx1
        exact ⟨g, List.mem_cons_of_mem f hg, hgx⟩

theorem length_of_isGeneratedToken (s : String) (h : isGeneratedToken s = true) :
    s.length = 32 := by
  unfold isGeneratedToken at h
  rw [Bool.and_eq_true] at h
  simpa using h.1

/-- C9: in every reachable state, every row of the auth_tokens table has a
user_id string that parses as a valid uuid (tokens are only inserted by
create_auth_token from an existing Uuid value), and therefore the unwrap
of Uuid::parse_str inside verify_auth_token never panics for any presented
token. -/
theorem C9_tokens_wellformed (st : ServerState) (h : Reachable st) :
    (∀ r ∈ st.catalog.tokens, (parseUuid r.userId).isSome = true) ∧
    (∀ t : String, ¬ verify_auth_token st.catalog t = .panic) := by
  have hwf := wf_reachable h
  constructor
  · intro r hr
    obtain ⟨v, hv⟩ := hwf.tokensUserId r hr
    rw [hv, parseUuid_uuidToString]
    rfl
  · intro t hpanic
    unfold verify_auth_token at hpanic
    cases hf : st.catalog.tokens.find? (fun r => r.token = t) with
    | none => rw [hf] at hpanic; cases hpanic
    | some r =>
      rw [hf] at hpanic
      obtain ⟨v, hv⟩ := hwf.tokensUserId r (List.mem_of_find?_eq_some hf)
      dsimp only at hpanic
      rw [hv, parseUuid_uuidToString] at hpanic
      cases hpanic

/-- Witness for C9 at a concrete reachable state and stored token. -/
theorem C9_witness : ¬ verify_auth_token stB.catalog aliceTok = .panic :=
  (C9_tokens_wellformed stB reach_stB).2 aliceTok

/-- C3: in every reachable state, every FileRecord has public_url equal to
none exactly when its visibility is private, and equal to some url exactly
when it is public; upload creates rows private with no url, and publish
sets both fields together, so the invariant is preserved by every
operation. -/
theorem C3_publicUrl_iff_visibility (st : ServerState) (h : Reachable st)
    (f : FileRow) (hf : f ∈ st.catalog.files) :
    (f.publicUrl = none ↔ f.isPublic = false) ∧
    ((∃ url, f.publicUrl = some url) ↔ f.isPublic = true) := by
  have hv := (wf_reachable h).filesVis f hf
  refine ⟨hv.symm, ?_⟩
  constructor
  · rintro ⟨url, hu⟩
    cases hb : f.isPublic with
    | false => rw [hv.mp hb] at hu; cases hu
    | true => rfl
  · intro hb
    cases hp : f.publicUrl with
    | some url => exact ⟨url, rfl⟩
    | none =>
      have h2 := hv.mpr hp
      rw [hb] at h2
      cases h2

/-- Witness for C3 at the concrete published row of stP. -/
theorem C3_witness :
    (pubRow.publicUrl = none ↔ pubRow.isPublic = false) ∧
    ((∃ url, pubRow.publicUrl = some url) ↔ pubRow.isPublic = true) :=
  C3_publicUrl_iff_visibility stP reach_stP pubRow (by decide)

/-- C8: a login for a username that has no user row and a login with a
wrong password for an existing row produce the very same response value:
status Unauthorized with body Invalid credentials, so the two causes are
indistinguishable to the caller. -/
theorem C8_login_uniform_unauthorized (st : ServerState) (h : Reachable st)
    (username password ftok now : String) :
    (st.catalog.users.find? (fun x => x.username = username) = none →
      login_user st username password ftok now =
        .resp .unauthorized (.text "Invalid credentials") st) ∧
    (∀ u, st.catalog.users.find? (fun x => x.username = username) = some u →
      verify_password password u.passwordHash = false →
      login_user st username password ftok now =
        .resp .unauthorized (.text "Invalid credentials") st) := by
  constructor
  · intro hf
    unfold login_user
    rw [hf]
  · intro u hf hvp
    unfold login_user
    rw [hf]
    obtain ⟨v, hvid⟩ := (wf_reachable h).usersId u (List.mem_of_find?_eq_some hf)
    dsimp only
    rw [hvid, parseUuid_uuidToString]
    dsimp only
    rw [hvp]
    simp

/-- Witness for C8: wrong password for the registered alice in stB. -/
theorem C8_witness :
    login_user stB "alice" "wrongpw" aliceTok "t9" =
      .resp .unauthorized (.text "Invalid credentials") stB :=
  (C8_login_uniform_unauthorized stB reach_stB "alice" "wrongpw" aliceTok "t9").2
    ⟨"1", "alice", "a@x.com", "bcrypt$pw1", "t0", "t0"⟩ (by decide) (by decide)

/-- C2: for an authenticated caller, publishing a file id for which no row
matches both the id and the callers user id — whether the row does not
exist at all or belongs to a different owner — produces the very same
response value: status NotFound with body File not found, and leaves the
state unchanged. -/
theorem C2_publish_uniform_notfound (st : ServerState) (tok : String)
    (uid : Uuid) (fileId : Uuid)
    (hauth : verify_auth_token st.catalog tok = .ok uid)
    (hnomatch : ∀ f ∈ st.catalog.files,
      ¬ (f.id = uuidToString fileId ∧ f.userId = uuidToString uid)) :
    make_file_public st (some tok) fileId =
      .resp .notFound (.text "File not found") st := by
  unfold make_file_public authenticate
  dsimp only
  rw [hauth]
  dsimp only
  have hcount : st.catalog.files.countP
      (fun r => r.id = uuidToString fileId && r.userId = uuidToString uid) = 0 :=
    List.countP_eq_zero.mpr (fun f hf => by simpa using hnomatch f hf)
  rw [hcount]
  rw [if_neg (by omega)]
  have hmap : st.catalog.files.map
      (fun r => if (r.id = uuidToString fileId && r.userId = uuidToString uid : Bool) then
        { r with isPublic := true, publicUrl := some ("/public/" ++ uuidToString fileId) } else r) =
      st.catalog.files := by
    have hcong : ∀ r ∈ st.catalog.files,
        (if (r.id = uuidToString fileId && r.userId = uuidToString uid : Bool) then
          { r with isPublic := true, publicUrl := some ("/public/" ++ uuidToString fileId) } else r) = id r := by
      intro r hr
      rw [if_neg (by simpa using hnomatch r hr)]
      rfl
    rw [List.map_congr_left hcong, List.map_id]
  rw [hmap]

/-- Witness for C2: bob, authenticated in stD, publishes the file id of a
row owned by alice; the response is the uniform NotFound. -/
theorem C2_witness :
    make_file_public stD (some bobTok) 2 =
      .resp .notFound (.text "File not found") stD :=
  C2_publish_uniform_notfound stD bobTok 4 2 (by decide) (by decide)

/-- C5 counterexample: registering alice a second time at the concrete
reachable state stA fails with status BadRequest and body User already
exists, and BadRequest is not the Conflict status the claim names. -/
theorem C5_counterexample :
    register_user stA "alice" "b@y.com" "pw2" 5 bobTok "t9" =
      .resp .badRequest (.text "User already exists") stA ∧
    ¬ HStatus.badRequest = HStatus.conflict := by
  constructor
  · decide
  · decide

/-- C5 (amended): for a fresh username, email, id and token, register
succeeds exactly once; a second register with the same username fails, but
with status BadRequest and body User already exists — the code maps the
uniqueness violation to BadRequest, not to Conflict. -/
theorem C5_register_once_then_badRequest (st : ServerState)
    (u e p : String) (fid : Uuid) (ftok now : String)
    (hfree : ∀ x ∈ st.catalog.users,
      ¬ (x.id = uuidToString fid ∨ x.username = u ∨ x.email = e))
    (htokfree : ∀ t ∈ st.catalog.tokens, ¬ t.token = ftok) :
    ∃ st1, register_user st u e p fid ftok now = .resp .created (.token ftok) st1 ∧
      ∀ e2 p2 fid2 ftok2 now2,
        register_user st1 u e2 p2 fid2 ftok2 now2 =
          .resp .badRequest (.text "User already exists") st1 := by
  unfold register_user
  dsimp only
  cases h1 : insertUser st.catalog ⟨uuidToString fid, u, e, hash_password p, now, now⟩ with
  | none =>
    exfalso
    unfold insertUser at h1
    split at h1
    · obtain ⟨x, hx, hpx⟩ := List.any_eq_true.mp (by assumption)
      exact hfree x hx (by simpa [or_assoc] using hpx)
    · cases h1
  | some c1 =>
    dsimp only
    have hc1 := insertUser_some _ _ _ h1
    cases h2 : create_auth_token c1 fid ftok now with
    | none =>
      exfalso
      unfold create_auth_token insertToken at h2
      split at h2
      · obtain ⟨x, hx, hpx⟩ := List.any_eq_true.mp (by assumption)
        have hx1 : x ∈ st.catalog.tokens := by
          rw [hc1] at hx
          exact hx
        exact htokfree x hx1 (by simpa using hpx)
      · cases h2
    | some c2 =>
      obtain ⟨hc2, -⟩ := insertToken_some _ _ _ h2
      refine ⟨⟨c2, st.storage⟩, rfl, ?_⟩
      intro e2 p2 fid2 ftok2 now2
      have husers : c2.users = st.catalog.users ++
          [⟨uuidToString fid, u, e, hash_password p, now, now⟩] := by
        rw [hc2, hc1]
      dsimp only
      have hdup : insertUser c2 ⟨uuidToString fid2, u, e2, hash_password p2, now2, now2⟩ = none := by
        unfold insertUser
        rw [if_pos (List.any_eq_true.mpr
          ⟨⟨uuidToString fid, u, e, hash_password p, now, now⟩,
            by rw [husers]; exact List.mem_append_right _ (List.mem_singleton_self _),
            by simp⟩)]
      rw [hdup]

/-- Witness for C5 (amended) at the initial state with the concrete alice
registration. -/
theorem C5_witness :
    ∃ st1, register_user initialState "alice" "a@x.com" "pw1" 1 aliceTok "t0" =
        .resp .created (.token aliceTok) st1 ∧
      ∀ e2 p2 fid2 ftok2 now2,
        register_user st1 "alice" e2 p2 fid2 ftok2 now2 =
          .resp .badRequest (.text "User already exists") st1 :=
  C5_register_once_then_badRequest initialState "alice" "a@x.com" "pw1" 1 aliceTok "t0"
    (by decide) (by decide)

theorem reach_stE : Reachable stE :=
  Reachable.step reach_stD (Step.upload stD (some bobTok) [("b.txt", [98])] 5 true "t4")

/-- C1: serve_public_file takes no token input at all; in every reachable
state, when the catalog holds a public row under the requested id the
response is 200 with exactly the bytes stored at that rows storage path,
and when no public row has the id — the file is private or absent — the
response is the single NotFound shape (never Forbidden), so the two causes
are indistinguishable. -/
theorem C1_public_read (st : ServerState) (h : Reachable st) (fid : Uuid) :
    (∀ row ∈ st.catalog.files, row.id = uuidToString fid → row.isPublic = true →
      ∃ b, storeLookup st.storage row.filePath = some b ∧
        serve_public_file st fid = .resp .ok (.bytes b) st) ∧
    ((∀ row ∈ st.catalog.files, ¬ (row.id = uuidToString fid ∧ row.isPublic = true)) →
      serve_public_file st fid = .resp .notFound (.text "File not found") st) := by
  have hwf := wf_reachable h
  constructor
  · intro row hrow hid hpub
    have hstored := hwf.filesStored row hrow
    cases hb : storeLookup st.storage row.filePath with
    | none => rw [hb] at hstored; cases hstored
    | some b =>
      refine ⟨b, rfl, ?_⟩
      unfold serve_public_file
      have hfind : st.catalog.files.find?
          (fun r => r.id = uuidToString fid && r.isPublic) = some row :=
        find?_eq_some_of_unique _ _ row hrow (by simp [hid, hpub])
          (fun y hy hpy => by
            have hy2 : y.id = uuidToString fid ∧ y.isPublic = true := by simpa using hpy
            exact eq_of_mem_pairwise_ne (fun f => f.id) _ hwf.filesIdUnique
              y row hy hrow (by show y.id = row.id; rw [hy2.1, hid]))
      rw [hfind]
      dsimp only
      rw [hb]
  · intro hnone
    unfold serve_public_file
    rw [List.find?_eq_none.mpr (fun x hx => by simpa using hnone x hx)]

/-- Witness for C1: unauthenticated read of the published file in stP
returns its stored bytes. -/
theorem C1_witness :
    ∃ b, storeLookup stP.storage pubRow.filePath = some b ∧
      serve_public_file stP 2 = .resp .ok (.bytes b) stP :=
  (C1_public_read stP reach_stP 2).1 pubRow (by decide) (by decide) (by decide)

/-- C4: listing with a token of user B returns a 200 with exactly the rows
whose user_id column is B — every returned record is owned by B, no record
of any other user A appears, every B-owned row appears — and an owner with
no rows gets the empty list, not an error. -/
theorem C4_list_returns_exactly_owned (st : ServerState) (h : Reachable st)
    (trow : TokenRow) (htrow : trow ∈ st.catalog.tokens)
    (B : Uuid) (hB : trow.userId = uuidToString B) :
    ∃ fs, get_user_files st (some trow.token) = .resp .ok (.fileList fs) st ∧
      (∀ f ∈ fs, f.userId = B) ∧
      (∀ A : Uuid, ¬ A = B → ∀ f ∈ fs, ¬ f.userId = A) ∧
      (∀ row ∈ st.catalog.files, row.userId = uuidToString B →
        ∃ f ∈ fs, rowToFile row = some f) ∧
      ((∀ row ∈ st.catalog.files, ¬ row.userId = uuidToString B) → fs = []) := by
  have hwf := wf_reachable h
  have hver := verify_token_of_mem st hwf trow htrow B hB
  unfold get_user_files authenticate
  dsimp only
  rw [hver]
  dsimp only
  have hok : ∀ r ∈ st.catalog.files.filter (fun r => r.userId = uuidToString B),
      ∃ f, rowToFile r = some f := by
    intro r hr
    have hr1 := List.mem_of_mem_filter hr
    obtain ⟨v, hv⟩ := hwf.filesId r hr1
    obtain ⟨w, hw⟩ := hwf.filesOwner r hr1
    exact rowToFile_isSome r (by rw [hv, parseUuid_uuidToString]; rfl)
      (by rw [hw, parseUuid_uuidToString]; rfl)
  obtain ⟨fs, hfs, hsound, hcomplete⟩ := collectFiles_sound _ hok
  rw [hfs]
  have hallB : ∀ f ∈ fs, f.userId = B := by
    intro f hf
    obtain ⟨r, hr, hrf⟩ := hsound f hf
    have huid : r.userId = uuidToString B := by simpa using List.of_mem_filter hr
    obtain ⟨-, huserId, -, -⟩ := rowToFile_fields r f hrf
    rw [huid, parseUuid_uuidToString] at huserId
    exact (Option.some_inj.mp huserId).symm
  refine ⟨fs, rfl, hallB, ?_, ?_, ?_⟩
  · intro A hA f hf hfa
    rw [hallB f hf] at hfa
    exact hA hfa.symm
  · intro row hrow hrowB
    exact hcomplete row (List.mem_filter.mpr ⟨hrow, by simpa using hrowB⟩)
  · intro hnoB
    cases fs with
    | nil => rfl
    | cons f fs2 =>
      exfalso
      obtain ⟨r, hr, -⟩ := hsound f (List.mem_cons_self f fs2)
      exact hnoB r (List.mem_of_mem_filter hr)
        (by simpa using List.of_mem_filter hr)

/-- Witness for C4: bob owns no files in stD, alice owns one; listing with
the bob token yields the empty list, never a row of alice. -/
theorem C4_witness :
    ∃ fs, get_user_files stD (some bobTok) = .resp .ok (.fileList fs) stD ∧
      (∀ f ∈ fs, f.userId = 4) ∧
      (∀ A : Uuid, ¬ A = 4 → ∀ f ∈ fs, ¬ f.userId = A) ∧
      (∀ row ∈ stD.catalog.files, row.userId = uuidToString 4 →
        ∃ f ∈ fs, rowToFile row = some f) ∧
      ((∀ row ∈ stD.catalog.files, ¬ row.userId = uuidToString 4) → fs = []) :=
  C4_list_returns_exactly_owned stD reach_stD ⟨bobTok, "4", "t3"⟩ (by decide) 4 (by decide)

/-- C10: the Authorization header value is used verbatim as the token. A
header of Bearer followed by a stored token is rejected with the 401
Invalid token response (stored tokens are 32 characters, a Bearer header
value is 39), and authentication yields a user only when the header value
is exactly a stored token string. -/
theorem C10_header_used_verbatim (st : ServerState) (h : Reachable st) :
    (∀ r ∈ st.catalog.tokens, ∀ parts fid wok now,
      upload_file st (some ("Bearer " ++ r.token)) parts fid wok now =
        .resp .unauthorized (.text "Invalid token") st) ∧
    (∀ hdr : String, ∀ uid : Uuid, verify_auth_token st.catalog hdr = .ok uid →
      ∃ r ∈ st.catalog.tokens, r.token = hdr ∧ r.userId = uuidToString uid) := by
  have hwf := wf_reachable h
  constructor
  · intro r hr parts fid wok now
    have hverr : verify_auth_token st.catalog ("Bearer " ++ r.token) = .err := by
      unfold verify_auth_token
      rw [List.find?_eq_none.mpr ?_]
      intro y hy
      simp only [decide_eq_true_eq]
      intro heq
      have hly : y.token.length = 32 := length_of_isGeneratedToken _ (hwf.tokensShape y hy)
      have hlr : r.token.length = 32 := length_of_isGeneratedToken _ (hwf.tokensShape r hr)
      have hpre : ("Bearer " : String).length = 7 := rfl
      rw [heq, String.length_append, hpre, hlr] at hly
      omega
    unfold upload_file authenticate
    dsimp only
    rw [hverr]
  · intro hdr uid hok
    unfold verify_auth_token at hok
    cases hf : st.catalog.tokens.find? (fun t => t.token = hdr) with
    | none => rw [hf] at hok; cases hok
    | some r =>
      rw [hf] at hok
      dsimp only at hok
      obtain ⟨v, hv⟩ := hwf.tokensUserId r (List.mem_of_find?_eq_some hf)
      rw [hv, parseUuid_uuidToString] at hok
      injection hok with huv
      refine ⟨r, List.mem_of_find?_eq_some hf, ?_, ?_⟩
      · simpa using List.find?_some hf
      · rw [hv, huv]

/-- Witness for C10: the stored alice token prefixed with Bearer is
rejected on upload in stB. -/
theorem C10_witness :
    upload_file stB (some ("Bearer " ++ aliceTok)) [] 9 true "t9" =
      .resp .unauthorized (.text "Invalid token") stB :=
  (C10_header_used_verbatim stB reach_stB).1 ⟨aliceTok, "1", "t0"⟩ (by decide) [] 9 true "t9"

/-- C6 counterexample: in the reachable state stC the same user has
uploaded the filename a.txt twice; the catalog holds two FileRecords with
the identical storage path, so storage-path uniqueness across all
FileRecords fails on the code. -/
theorem C6_counterexample :
    Reachable stC ∧
    stC.catalog.files.map (fun f => f.filePath) = ["files/1/a.txt", "files/1/a.txt"] ∧
    ¬ (stC.catalog.files.map (fun f => f.filePath)).Nodup := by
  refine ⟨reach_stC, by decide, by decide⟩

/-- C6 (amended): storage paths are namespaced by owner, so in every
reachable state two FileRecords of different owners never share a storage
path; but two records of the same owner for the same filename do share
one, so uniqueness holds only across distinct owners, not across all
FileRecords. -/
theorem C6_paths_namespaced_per_owner (st : ServerState) (h : Reachable st)
    (f g : FileRow) (hf : f ∈ st.catalog.files) (hg : g ∈ st.catalog.files)
    (hne : ¬ f.userId = g.userId) : ¬ f.filePath = g.filePath := by
  have hwf := wf_reachable h
  obtain ⟨a, ha⟩ := hwf.filesOwner f hf
  obtain ⟨b, hb⟩ := hwf.filesOwner g hg
  rw [hwf.filesPath f hf, hwf.filesPath g hg, ha, hb]
  exact path_ne_of_userId_ne (uuidToString a) (uuidToString b) f.filename g.filename
    (slash_not_mem_uuidToString a) (slash_not_mem_uuidToString b)
    (by rw [← ha, ← hb]; exact hne)

/-- Witness for C6 (amended): the alice row and the bob row in stE have
different owners and hence different storage paths. -/
theorem C6_witness :
    ¬ (⟨"2", "1", "a.txt", "files/1/a.txt", false, none, "t1", "t1"⟩ : FileRow).filePath =
      (⟨"5", "4", "b.txt", "files/4/b.txt", false, none, "t4", "t4"⟩ : FileRow).filePath :=
  C6_paths_namespaced_per_owner stE reach_stE
    ⟨"2", "1", "a.txt", "files/1/a.txt", false, none, "t1", "t1"⟩
    ⟨"5", "4", "b.txt", "files/4/b.txt", false, none, "t4", "t4"⟩
    (by decide) (by decide) (by decide)

/-- C7: in upload_file the byte write precedes the catalog insert.  When
the write fails the handler aborts (panics) with the files table
untouched, so no row is created; and any row the catalog gains during an
upload has the uploaded bytes present at its storage path in the resulting
state, so a catalog row never references bytes that failed to persist. -/
theorem C7_bytes_persisted_before_catalog_row :
    (∀ st auth parts fid now,
      (upload_file st auth parts fid false now).state.catalog.files = st.catalog.files) ∧
    (∀ st auth parts fid wok now row,
      row ∈ (upload_file st auth parts fid wok now).state.catalog.files →
      ¬ row ∈ st.catalog.files →
      ∃ fn data rest, parts = (fn, data) :: rest ∧
        storeLookup (upload_file st auth parts fid wok now).state.storage row.filePath =
          some data) := by
  constructor
  · intro st auth parts fid now
    unfold upload_file
    cases ha : authenticate st auth with
    | error r =>
      dsimp only
      rw [authenticate_error_state st auth r ha]
    | ok uid =>
      dsimp only
      cases parts with
      | nil => rfl
      | cons hd tl =>
        obtain ⟨fn, data⟩ := hd
        rfl
  · intro st auth parts fid wok now row hmem hnot
    unfold upload_file at hmem ⊢
    cases ha : authenticate st auth with
    | error r =>
      exfalso
      rw [ha] at hmem
      dsimp only at hmem
      rw [authenticate_error_state st auth r ha] at hmem
      exact hnot hmem
    | ok uid =>
      rw [ha] at hmem
      dsimp only at hmem ⊢
      cases parts with
      | nil => exact absurd hmem hnot
      | cons hd tl =>
        obtain ⟨fn, data⟩ := hd
        dsimp only at hmem ⊢
        cases wok with
        | false =>
          rw [if_neg Bool.false_ne_true] at hmem
          exact absurd hmem hnot
        | true =>
          rw [if_pos rfl] at hmem ⊢
          cases h1 : insertFile st.catalog
              ⟨uuidToString fid, uuidToString uid, fn,
                "files/" ++ uuidToString uid ++ "/" ++ fn, false, none, now, now⟩ with
          | none =>
            rw [h1] at hmem
            exact absurd hmem hnot
          | some c1 =>
            rw [h1] at hmem
            obtain ⟨hc1, -⟩ := insertFile_some _ _ _ h1
            refine ⟨fn, data, tl, rfl, ?_⟩
            dsimp only at hmem ⊢
            rw [hc1] at hmem
            rcases List.mem_append.mp hmem with hold | hnew
            · exact absurd hold hnot
            · rw [List.mem_singleton.mp hnew]
              dsimp only [HResult.state]
              rw [storeLookup_storeWrite, if_pos rfl]

/-- Witness for C7: the concrete upload into stA leaves the uploaded bytes
at the storage path of the newly created row. -/
theorem C7_witness :
    ∃ fn data rest,
      ([("a.txt", [104, 101, 108, 108, 111])] : List (String × Bytes)) = (fn, data) :: rest ∧
      storeLookup
        (upload_file stA (some aliceTok) [("a.txt", [104, 101, 108, 108, 111])] 2 true "t1").state.storage
        (⟨"2", "1", "a.txt", "files/1/a.txt", false, none, "t1", "t1"⟩ : FileRow).filePath =
        some data :=
  C7_bytes_persisted_before_catalog_row.2 stA (some aliceTok)
    [("a.txt", [104, 101, 108, 108, 111])] 2 true "t1"
    ⟨"2", "1", "a.txt", "files/1/a.txt", false, none, "t1", "t1"⟩ (by decide) (by decide)
